import Mathlib

/-!
Verification of `envf` (src/main.rs), a command launcher that merges TOML
files into an environment mapping and replaces the process image with a
user command.

Strings are modelled as lists of characters (`Str`); the tokens involved
are ASCII, so the byte-based slicing of Rust (`arg[3..]`) coincides with
character-based `List.drop 3`.
-/

namespace Envf

abbrev Str : Type := List Char

/-- Rust `struct Config { files, silent, command }` (main.rs lines 45-49). -/
structure Config where
  files : List Str
  silent : Bool
  command : List Str

deriving instance DecidableEq for Config

/-- Rust `enum ArgParseResult { Config, Err, Help }` (main.rs lines 85-89). -/
inductive ArgParseResult where
  | Config (config : Envf.Config)
  | Err (msg : Str)
  | Help

deriving instance DecidableEq for ArgParseResult

/-- Outcome of the flag-scanning loop of `parse_args` (main.rs lines 95-117):
either the loop returned early (`help` from line 100, `trailingF` from
line 106), or it `break`-ed out with the accumulated `files`, `silent`
and the remaining (unconsumed) arguments. -/
inductive ScanResult where
  | help
  | trailingF
  | done (files : List Str) (silent : Bool) (rest : List Str)

deriving instance DecidableEq for ScanResult

/-- The `loop`/`peek` flag scan of `parse_args` (main.rs lines 95-117).
Each iteration peeks at the head argument; `-s` sets `silent`, `-f`
additionally consumes the following argument as a file path (or fails when
none follows), `-f=PATH` appends the remainder after the 3-byte marker,
and any other argument breaks the loop unconsumed. -/
def scanFlags : List Str → List Str → Bool → ScanResult
  | [], files, silent => ScanResult.done files silent []
  | arg :: rest, files, silent =>
    if arg = "-h".toList ∨ arg = "--help".toList then ScanResult.help
    else if arg = "-s".toList then scanFlags rest files true
    else if arg = "-f".toList then
      match rest with
      | [] => ScanResult.trailingF
      | path :: rest2 => scanFlags rest2 (files ++ [path]) silent
    else if ("-f=".toList).isPrefixOf arg then
      scanFlags rest (files ++ [arg.drop 3]) silent
    else ScanResult.done files silent (arg :: rest)

/-- Message of main.rs line 120. -/
def noCommandMsg : Str := "No command to execute was provided.".toList

/-- Message of main.rs line 106. -/
def trailingFMsg : Str := "Trailing -f".toList

/-- Source `parse_args` (main.rs lines 91-128): run the flag scan, collect the
remaining arguments as the command (`args.collect()`), and reject an empty
command after the scan completed. -/
def parse_args (args : List Str) : ArgParseResult :=
  match scanFlags args [] false with
  | ScanResult.help => ArgParseResult.Help
  | ScanResult.trailingF => ArgParseResult.Err trailingFMsg
  | ScanResult.done files silent cmd =>
    if cmd.length = 0 then ArgParseResult.Err noCommandMsg
    else ArgParseResult.Config ⟨files, silent, cmd⟩

/-- Characterization of the argument prefixes that the flag scan consumes
entirely while staying in the scanning state, together with the files and
silent flag they contribute.  `flagsOnly pre = some (fs, sil)` holds
exactly when the scan walks through all of `pre` without returning early
and without breaking to command collection; the agreement with `scanFlags`
is proved in `scanFlags_append` below. -/
def flagsOnly : List Str → Option (List Str × Bool)
  | [] => some ([], false)
  | arg :: rest =>
    if arg = "-h".toList ∨ arg = "--help".toList then none
    else if arg = "-s".toList then
      match flagsOnly rest with
      | none => none
      | some (fs, _) => some (fs, true)
    else if arg = "-f".toList then
      match rest with
      | [] => none
      | path :: rest2 =>
        match flagsOnly rest2 with
        | none => none
        | some (fs, s) => some (path :: fs, s)
    else if ("-f=".toList).isPrefixOf arg then
      match flagsOnly rest with
      | none => none
      | some (fs, s) => some (arg.drop 3 :: fs, s)
    else none

example : parse_args ["-s".toList, "--".toList] =
    ArgParseResult.Config ⟨[], true, ["--".toList]⟩ := by decide

example : parse_args ["-f".toList, "-h".toList, "cmd".toList] =
    ArgParseResult.Config ⟨["-h".toList], false, ["cmd".toList]⟩ := by decide

example : parse_args ["-s".toList] = ArgParseResult.Err noCommandMsg := by decide

example : parse_args ["-f".toList] = ArgParseResult.Err trailingFMsg := by decide

example : flagsOnly ["-s".toList, "-f=a".toList] = some (["a".toList], true) := by decide

/-- One-step unfolding of `scanFlags` on a cons cell, independent of the
shape of the tail. -/
theorem scanFlags_cons (arg : Str) (rest files : List Str) (silent : Bool) :
    scanFlags (arg :: rest) files silent =
      if arg = "-h".toList ∨ arg = "--help".toList then ScanResult.help
      else if arg = "-s".toList then scanFlags rest files true
      else if arg = "-f".toList then
        match rest with
        | [] => ScanResult.trailingF
        | path :: rest2 => scanFlags rest2 (files ++ [path]) silent
      else if ("-f=".toList).isPrefixOf arg then
        scanFlags rest (files ++ [arg.drop 3]) silent
      else ScanResult.done files silent (arg :: rest) := by
  cases rest <;> rfl

/-- One-step unfolding of `flagsOnly` on a cons cell, independent of the
shape of the tail. -/
theorem flagsOnly_cons (arg : Str) (rest : List Str) :
    flagsOnly (arg :: rest) =
      if arg = "-h".toList ∨ arg = "--help".toList then none
      else if arg = "-s".toList then
        match flagsOnly rest with
        | none => none
        | some (fs, _) => some (fs, true)
      else if arg = "-f".toList then
        match rest with
        | [] => none
        | path :: rest2 =>
          match flagsOnly rest2 with
          | none => none
          | some (fs, s) => some (path :: fs, s)
      else if ("-f=".toList).isPrefixOf arg then
        match flagsOnly rest with
        | none => none
        | some (fs, s) => some (arg.drop 3 :: fs, s)
      else none := by
  cases rest <;> rfl

/-- A prefix wholly consumed by the flag scan contributes its files and its
silent flag, and the scan then continues on the remaining arguments: the
scan state after `pre` is exactly what `flagsOnly pre` predicts. -/
theorem scanFlags_append (pre : List Str) :
    ∀ fs sil, flagsOnly pre = some (fs, sil) →
    ∀ files silent rest,
      scanFlags (pre ++ rest) files silent =
        scanFlags rest (files ++ fs) (silent || sil) := by
  induction pre using flagsOnly.induct with
  | case1 =>
    intro fs sil h files silent rest
    simp only [flagsOnly, Option.some.injEq, Prod.mk.injEq] at h
    obtain ⟨rfl, rfl⟩ := h
    simp
  | case2 arg rest2 hcond =>
    intro fs sil h
    rw [flagsOnly_cons, if_pos hcond] at h
    exact absurd h (by simp)
  | case3 rest2 hnone h1 h2 =>
    intro fs sil h
    rw [flagsOnly_cons, if_neg h1, if_pos rfl, hnone] at h
    exact absurd h (by simp)
  | case4 rest2 fs0 snd hsome h1 ih =>
    intro fs sil h files silent rest
    rw [flagsOnly_cons, if_neg h1, if_pos rfl, hsome] at h
    simp only [Option.some.injEq, Prod.mk.injEq] at h
    obtain ⟨rfl, rfl⟩ := h
    show scanFlags ("-s".toList :: (rest2 ++ rest)) files silent = _
    rw [scanFlags_cons, if_neg h1, if_pos rfl]
    rw [ih fs0 snd hsome files true rest]
    simp
  | case5 h1 h2 =>
    intro fs sil h
    rw [flagsOnly_cons, if_neg h1, if_neg h2, if_pos rfl] at h
    exact absurd h (by simp)
  | case6 path rest2 hnone h1 h2 ih =>
    intro fs sil h
    rw [flagsOnly_cons, if_neg h1, if_neg h2, if_pos rfl] at h
    have h' : (match flagsOnly rest2 with
        | none => (none : Option (List Str × Bool))
        | some (fs, s) => some (path :: fs, s)) = some (fs, sil) := h
    rw [hnone] at h'
    exact Option.noConfusion h'
  | case7 path rest2 fs0 snd hsome h1 h2 ih =>
    intro fs sil h files silent rest
    rw [flagsOnly_cons, if_neg h1, if_neg h2, if_pos rfl] at h
    have h' : (match flagsOnly rest2 with
        | none => (none : Option (List Str × Bool))
        | some (fs, s) => some (path :: fs, s)) = some (fs, sil) := h
    rw [hsome] at h'
    have h'' : some (path :: fs0, snd) = some (fs, sil) := h'
    simp only [Option.some.injEq, Prod.mk.injEq] at h''
    obtain ⟨rfl, rfl⟩ := h''
    show scanFlags ("-f".toList :: (path :: (rest2 ++ rest))) files silent = _
    rw [scanFlags_cons, if_neg h1, if_neg h2, if_pos rfl]
    show scanFlags (rest2 ++ rest) (files ++ [path]) silent = _
    rw [ih fs0 snd hsome (files ++ [path]) silent rest]
    simp
  | case8 arg rest2 h1 h2 h3 hpre hnone ih =>
    intro fs sil h
    rw [flagsOnly_cons, if_neg h1, if_neg h2, if_neg h3, if_pos hpre,
      hnone] at h
    exact absurd h (by simp)
  | case9 arg rest2 h1 h2 h3 hpre fs0 snd hsome ih =>
    intro fs sil h files silent rest
    rw [flagsOnly_cons, if_neg h1, if_neg h2, if_neg h3, if_pos hpre,
      hsome] at h
    simp only [Option.some.injEq, Prod.mk.injEq] at h
    obtain ⟨rfl, rfl⟩ := h
    show scanFlags (arg :: (rest2 ++ rest)) files silent = _
    rw [scanFlags_cons, if_neg h1, if_neg h2, if_neg h3, if_pos hpre]
    rw [ih fs0 snd hsome (files ++ [arg.drop 3]) silent rest]
    simp
  | case10 arg rest2 h1 h2 h3 h4 =>
    intro fs sil h
    rw [flagsOnly_cons, if_neg h1, if_neg h2, if_neg h3, if_neg h4] at h
    exact absurd h (by simp)

/-- Converse direction: if the flag scan terminates by consuming every
argument (so the collected command is empty), the whole argument vector
was a pure flag sequence. -/
theorem flagsOnly_isSome_of_done_nil (args : List Str) :
    ∀ files silent fs sil,
      scanFlags args files silent = ScanResult.done fs sil [] →
      (flagsOnly args).isSome = true := by
  induction args using flagsOnly.induct with
  | case1 => intro _ _ _ _ _; simp [flagsOnly]
  | case2 arg rest2 hcond =>
    intro files silent fs sil h
    rw [scanFlags_cons, if_pos hcond] at h
    exact absurd h (by simp)
  | case3 rest2 hnone h1 ih =>
    intro files silent fs sil h
    rw [scanFlags_cons, if_neg h1, if_pos rfl] at h
    have := ih files true fs sil h
    rw [hnone] at this
    simp at this
  | case4 rest2 fs0 snd hsome h1 ih =>
    intro files silent fs sil h
    rw [flagsOnly_cons, if_neg h1, if_pos rfl, hsome]
    simp
  | case5 h1 h2 =>
    intro files silent fs sil h
    rw [scanFlags_cons, if_neg h1, if_neg h2, if_pos rfl] at h
    exact absurd h (by simp)
  | case6 path rest2 hnone h1 h2 ih =>
    intro files silent fs sil h
    rw [scanFlags_cons, if_neg h1, if_neg h2, if_pos rfl] at h
    have := ih (files ++ [path]) silent fs sil h
    rw [hnone] at this
    simp at this
  | case7 path rest2 fs0 snd hsome h1 h2 ih =>
    intro files silent fs sil h
    rw [flagsOnly_cons, if_neg h1, if_neg h2, if_pos rfl]
    show (match flagsOnly rest2 with
        | none => (none : Option (List Str × Bool))
        | some (fs, s) => some (path :: fs, s)).isSome = true
    rw [hsome]
    rfl
  | case8 arg rest2 h1 h2 h3 hpre hnone ih =>
    intro files silent fs sil h
    rw [scanFlags_cons, if_neg h1, if_neg h2, if_neg h3, if_pos hpre] at h
    have := ih (files ++ [arg.drop 3]) silent fs sil h
    rw [hnone] at this
    simp at this
  | case9 arg rest2 h1 h2 h3 hpre fs0 snd hsome ih =>
    intro files silent fs sil h
    rw [flagsOnly_cons, if_neg h1, if_neg h2, if_neg h3, if_pos hpre,
      hsome]
    simp
  | case10 arg rest2 h1 h2 h3 h4 =>
    intro files silent fs sil h
    rw [scanFlags_cons, if_neg h1, if_neg h2, if_neg h3, if_neg h4] at h
    simp only [ScanResult.done.injEq] at h
    exact absurd h.2.2 (by simp)

/-- C1 counterexample: `envf -s --` does not produce the "no command"
usage error; `--` is not special to the parser, so it becomes the command
itself. -/
theorem parse_args_dash_dash_config :
    parse_args ["-s".toList, "--".toList] =
      ArgParseResult.Config ⟨[], true, ["--".toList]⟩ ∧
    parse_args ["-s".toList, "--".toList] ≠ ArgParseResult.Err noCommandMsg := by
  decide

/-- C1 (amended): the "no command provided" error fires exactly when the
flag scan consumes the whole argument vector, so that zero arguments remain
to be collected as the command; in particular `envf -s` (with nothing after
the flags) yields it, while `envf -s --` does not (`--` becomes the
command). -/
theorem noCommandError_iff_scan_consumes_all :
    (∀ args : List Str,
      parse_args args = ArgParseResult.Err noCommandMsg ↔
        (flagsOnly args).isSome = true) ∧
    parse_args ["-s".toList] = ArgParseResult.Err noCommandMsg := by
  constructor
  · intro args
    constructor
    · intro h
      unfold parse_args at h
      cases hs : scanFlags args [] false with
      | help => rw [hs] at h; exact ArgParseResult.noConfusion h
      | trailingF =>
        rw [hs] at h
        have h2 : trailingFMsg = noCommandMsg := by injection h
        exact absurd h2 (by decide)
      | done files silent cmd =>
        rw [hs] at h
        by_cases hc : cmd.length = 0
        · have hnil : cmd = [] := List.length_eq_zero.mp hc
          rw [hnil] at hs
          exact flagsOnly_isSome_of_done_nil args [] false files silent hs
        · have h' : (if cmd.length = 0 then ArgParseResult.Err noCommandMsg
              else ArgParseResult.Config ⟨files, silent, cmd⟩) =
              ArgParseResult.Err noCommandMsg := h
          rw [if_neg hc] at h'
          exact ArgParseResult.noConfusion h'
    · intro h
      obtain ⟨⟨fs, sil⟩, hfs⟩ := Option.isSome_iff_exists.mp h
      have key := scanFlags_append args fs sil hfs [] false []
      rw [List.append_nil] at key
      unfold parse_args
      rw [key]
      rfl
  · decide

/-- C1 witness: a concrete all-flags vector on which the amended
characterization produces the "no command" error. -/
theorem noCommandError_iff_witness :
    parse_args ["-f=a".toList] = ArgParseResult.Err noCommandMsg :=
  (noCommandError_iff_scan_consumes_all.1 ["-f=a".toList]).mpr (by decide)

/-- C4: reaching `-h` or `--help` while the scan is still in flag-scanning
state (i.e. after a prefix wholly consumed as flags) yields Help,
regardless of the `-s`/`-f` flags already parsed. -/
theorem help_overrides (pre : List Str) (fs : List Str) (sil : Bool)
    (hpre : flagsOnly pre = some (fs, sil)) (h : Str)
    (hh : h = "-h".toList ∨ h = "--help".toList) (post : List Str) :
    parse_args (pre ++ h :: post) = ArgParseResult.Help := by
  unfold parse_args
  rw [scanFlags_append pre fs sil hpre [] false (h :: post)]
  rw [scanFlags_cons, if_pos hh]

/-- C4 witness: `envf -s -h x` prints help despite the preceding `-s`. -/
theorem help_overrides_witness :
    parse_args (["-s".toList] ++ "-h".toList :: ["x".toList]) =
      ArgParseResult.Help :=
  help_overrides ["-s".toList] [] true (by decide) "-h".toList
    (Or.inl rfl) ["x".toList]

/-- C5: the first argument in scanning state that is none of the
recognized flag forms ends the scan, and the command is exactly that
argument followed by all later arguments, verbatim. -/
theorem command_verbatim (pre : List Str) (fs : List Str) (sil : Bool)
    (hpre : flagsOnly pre = some (fs, sil)) (arg : Str)
    (h1 : ¬(arg = "-h".toList ∨ arg = "--help".toList))
    (h2 : arg ≠ "-s".toList) (h3 : arg ≠ "-f".toList)
    (h4 : ("-f=".toList).isPrefixOf arg = false) (rest : List Str) :
    parse_args (pre ++ arg :: rest) =
      ArgParseResult.Config ⟨fs, sil, arg :: rest⟩ := by
  unfold parse_args
  rw [scanFlags_append pre fs sil hpre [] false (arg :: rest)]
  rw [scanFlags_cons, if_neg h1, if_neg h2, if_neg h3,
    if_neg (fun hcon => by rw [h4] at hcon; exact Bool.noConfusion hcon)]
  simp

/-- C5 witness: after `-s -f=a`, the argument `x` starts the command and
the later tokens `-s` and `-f` are not interpreted as flags. -/
theorem command_verbatim_witness :
    parse_args (["-s".toList, "-f=a".toList] ++
        "x".toList :: ["-s".toList, "-f".toList]) =
      ArgParseResult.Config
        ⟨["a".toList], true, ["x".toList, "-s".toList, "-f".toList]⟩ :=
  command_verbatim ["-s".toList, "-f=a".toList] ["a".toList] true
    (by decide) "x".toList (by decide) (by decide) (by decide) (by decide)
    ["-s".toList, "-f".toList]

/-- A token of the form `-f=PATH` is never literally `-h` or `--help`. -/
theorem feq_arg_ne_help (path : Str) :
    ¬("-f=".toList ++ path = "-h".toList ∨
      "-f=".toList ++ path = "--help".toList) := by
  intro hc
  rcases hc with hc | hc
  · have hc' : '-' :: 'f' :: '=' :: path = ['-', 'h'] := hc
    injection hc' with _ t
    injection t with hf _
    exact absurd hf (by decide)
  · have hc' : '-' :: 'f' :: '=' :: path = ['-', '-', 'h', 'e', 'l', 'p'] := hc
    injection hc' with _ t
    injection t with hf _
    exact absurd hf (by decide)

/-- A token of the form `-f=PATH` is never literally `-s`. -/
theorem feq_arg_ne_s (path : Str) : "-f=".toList ++ path ≠ "-s".toList := by
  intro hc
  have hc' : '-' :: 'f' :: '=' :: path = ['-', 's'] := hc
  injection hc' with _ t
  injection t with hf _
  exact absurd hf (by decide)

/-- A token of the form `-f=PATH` is never literally `-f`. -/
theorem feq_arg_ne_f (path : Str) : "-f=".toList ++ path ≠ "-f".toList := by
  intro hc
  have hc' : '-' :: 'f' :: '=' :: path = ['-', 'f'] := hc
  injection hc' with _ t
  injection t with _ t2
  exact absurd t2 (by simp)

/-- C6 counterexample: once command collection has begun (here after the
non-flag argument `x`), the two spellings are no longer interchangeable —
they produce different command vectors. -/
theorem f_spellings_differ_in_command_position :
    parse_args ["x".toList, "-f".toList, "p".toList] ≠
      parse_args ["x".toList, "-f=p".toList] := by decide

/-- C6 (amended): as long as the occurrence is reached while the scan is
still in flag-scanning state, replacing the two arguments `-f PATH` by the
single argument `-f=PATH` (and vice versa) yields an identical parse
result; mixing spellings across occurrences is covered by the arbitrary
flag prefix `pre`. -/
theorem f_spellings_equivalent_while_scanning (pre : List Str)
    (fs : List Str) (sil : Bool) (hpre : flagsOnly pre = some (fs, sil))
    (path : Str) (post : List Str) :
    parse_args (pre ++ "-f".toList :: path :: post) =
      parse_args (pre ++ ("-f=".toList ++ path) :: post) := by
  unfold parse_args
  rw [scanFlags_append pre fs sil hpre [] false
      ("-f".toList :: path :: post),
    scanFlags_append pre fs sil hpre [] false
      (("-f=".toList ++ path) :: post)]
  have key : scanFlags ("-f".toList :: path :: post) ([] ++ fs)
      (false || sil) =
      scanFlags (("-f=".toList ++ path) :: post) ([] ++ fs) (false || sil) := by
    rw [scanFlags_cons, if_neg (by decide), if_neg (by decide), if_pos rfl]
    rw [scanFlags_cons ("-f=".toList ++ path), if_neg (feq_arg_ne_help path),
      if_neg (feq_arg_ne_s path), if_neg (feq_arg_ne_f path),
      if_pos (show ("-f=".toList).isPrefixOf ("-f=".toList ++ path) = true by
        simp [List.isPrefixOf])]
    rfl
  rw [key]

/-- C6 witness: `envf -s -f p c` and `envf -s -f=p c` parse identically. -/
theorem f_spellings_equivalent_witness :
    parse_args (["-s".toList] ++ "-f".toList :: "p".toList :: ["c".toList]) =
      parse_args (["-s".toList] ++ ("-f=".toList ++ "p".toList) :: ["c".toList]) :=
  f_spellings_equivalent_while_scanning ["-s".toList] [] true (by decide)
    "p".toList ["c".toList]

/-- C7: a `-f` reached in scanning state with nothing after it yields the
fatal "Trailing -f" error; otherwise the scan consumes the immediately
following argument and appends it to the files list. -/
theorem trailing_f (pre : List Str) (fs : List Str) (sil : Bool)
    (hpre : flagsOnly pre = some (fs, sil)) :
    parse_args (pre ++ ["-f".toList]) = ArgParseResult.Err trailingFMsg ∧
    ∀ p post, scanFlags (pre ++ "-f".toList :: p :: post) [] false =
      scanFlags post (fs ++ [p]) sil := by
  constructor
  · unfold parse_args
    rw [scanFlags_append pre fs sil hpre [] false ["-f".toList]]
    rw [scanFlags_cons, if_neg (by decide), if_neg (by decide), if_pos rfl]
  · intro p post
    rw [scanFlags_append pre fs sil hpre [] false
      ("-f".toList :: p :: post)]
    rw [scanFlags_cons, if_neg (by decide), if_neg (by decide), if_pos rfl]
    simp

/-- C7 witness: `envf -f` alone is the trailing-f error, and in
`envf -f p c` the scan consumes `p` as a file path. -/
theorem trailing_f_witness :
    parse_args (([] : List Str) ++ ["-f".toList]) =
      ArgParseResult.Err trailingFMsg ∧
    scanFlags (([] : List Str) ++ "-f".toList :: "p".toList :: ["c".toList])
      [] false = scanFlags ["c".toList] (([] : List Str) ++ ["p".toList]) false :=
  ⟨(trailing_f [] [] false rfl).1,
    (trailing_f [] [] false rfl).2 "p".toList ["c".toList]⟩

/-- C10: the argument following a `-f` reached in scanning state is taken
as a file path verbatim, even when it looks like a flag; in particular
`envf -f -h cmd` treats `-h` as a file name, not as a help request. -/
theorem file_arg_taken_verbatim :
    (∀ pre fs sil, flagsOnly pre = some (fs, sil) →
      ∀ (x : Str) (rest : List Str),
        scanFlags (pre ++ "-f".toList :: x :: rest) [] false =
          scanFlags rest (fs ++ [x]) sil) ∧
    parse_args ["-f".toList, "-h".toList, "cmd".toList] =
      ArgParseResult.Config ⟨["-h".toList], false, ["cmd".toList]⟩ := by
  constructor
  · intro pre fs sil hpre x rest
    rw [scanFlags_append pre fs sil hpre [] false ("-f".toList :: x :: rest)]
    rw [scanFlags_cons, if_neg (by decide), if_neg (by decide), if_pos rfl]
    simp
  · decide

/-- C10 witness: after `-s`, the token `-f=zz` following `-f` is consumed
as a file path rather than being parsed as a `-f=` flag. -/
theorem file_arg_taken_verbatim_witness :
    scanFlags (["-s".toList] ++ "-f".toList :: "-f=zz".toList :: ["c".toList])
      [] false = scanFlags ["c".toList] ([] ++ ["-f=zz".toList]) true :=
  file_arg_taken_verbatim.1 ["-s".toList] [] true (by decide)
    "-f=zz".toList ["c".toList]

/-- Rust `f64` as carried by `toml::Value::Float`, together with the
decimal rendering its `Display` implementation produces. The rendering is
computed by the external float formatter of Rust, so it is carried as data. -/
structure RustFloat where
  display : Str

/-- Type `toml::value::Datetime`, carried as the canonical textual form that
its `Display` implementation reproduces. -/
structure TomlDatetime where
  display : Str

/-- Type `toml::Value`, the typed value produced by the external document
parser: the five scalar kinds plus the two composite kinds. -/
inductive Value where
  | String (s : Str)
  | Integer (x : Int)
  | Float (f : RustFloat)
  | Boolean (b : Bool)
  | Datetime (d : TomlDatetime)
  | Array (xs : List Value)
  | Table (t : List (Str × Value))

/-- Rendering `format!("\x7b\x7d", x)` of an `i64`: the decimal form, sign included. -/
def intStr (x : Int) : Str := x.repr.toList

mutual

/-- Model of the Rust `\x7b:?\x7d` (Debug) rendering of `toml::Value`, used
only inside the coercion error message. The string-escaping of the
external Debug formatter is modelled as plain quoting; no property proved
below depends on the exact escape rules. -/
def debugValue : Value → Str
  | Value.String s => "String(\"".toList ++ s ++ "\")".toList
  | Value.Integer x => "Integer(".toList ++ intStr x ++ ")".toList
  | Value.Float f => "Float(".toList ++ f.display ++ ")".toList
  | Value.Boolean b =>
    "Boolean(".toList ++ (if b then "true".toList else "false".toList) ++
      ")".toList
  | Value.Datetime d => "Datetime(".toList ++ d.display ++ ")".toList
  | Value.Array xs => "Array([".toList ++ debugValueList xs ++ "])".toList
  | Value.Table t => "Table(\x7b".toList ++ debugFieldList t ++ "\x7d)".toList

/-- Comma-separated Debug rendering of the elements of an array. -/
def debugValueList : List Value → Str
  | [] => []
  | [v] => debugValue v
  | v :: rest => debugValue v ++ ", ".toList ++ debugValueList rest

/-- Comma-separated Debug rendering of the fields of a table. -/
def debugFieldList : List (Str × Value) → Str
  | [] => []
  | [(k, v)] => "\"".toList ++ k ++ "\": ".toList ++ debugValue v
  | (k, v) :: rest =>
    "\"".toList ++ k ++ "\": ".toList ++ debugValue v ++ ", ".toList ++
      debugFieldList rest

end

/-- Source `stringify` (main.rs lines 164-173): the canonical string form of a
scalar value, `none` (Rust `None`) for everything else. -/
def stringify : Value → Option Str
  | Value.String s => some s
  | Value.Integer x => some (intStr x)
  | Value.Float f => some f.display
  | Value.Boolean b => some (if b then "true".toList else "false".toList)
  | Value.Datetime d => some d.display
  | _ => none

/-- Rust `type EnvMap = HashMap<String, String>` (main.rs line 11), modelled
extensionally by its lookup function; every use of the map in the program
(insert, iterate-and-insert, pass to `envs`) depends only on lookups, and
a `HashMap` has no observable key order. -/
def EnvMap : Type := Str → Option Str

/-- Constructor `EnvMap::new()`. -/
def emptyEnv : EnvMap := fun _ => none

/-- Insertion `m.insert(k, v)`. -/
def insertEnv (m : EnvMap) (k v : Str) : EnvMap :=
  fun q => if q = k then some v else m q

/-- Rust `type EnvMapOrError = Result<EnvMap, String>` (main.rs line 13). -/
def EnvMapOrError : Type := Except Str EnvMap

/-- The error message built by `add_field` (main.rs lines 156-159):
`value for ... can not be converted into a string` (its apostrophe
is spelled via its code point 39). -/
def fieldErr (k : Str) (v : Value) : Str :=
  "value for ".toList ++ k ++ " (".toList ++ debugValue v ++
    ") can".toList ++ [Char.ofNat 39] ++ "t be converted into a string".toList

/-- Source `add_field` (main.rs lines 147-162): the fold step over the
fields of a table — an already-failed accumulator is passed through unchanged; a
representable value is inserted (`m.clone()` then `insert`); an
unrepresentable one produces the error naming the field. -/
def add_field (z : EnvMapOrError) (kv : Str × Value) : EnvMapOrError :=
  match z with
  | Except.error e => Except.error e
  | Except.ok m =>
    match stringify kv.2 with
    | some s => Except.ok (insertEnv m kv.1 s)
    | none => Except.error (fieldErr kv.1 kv.2)

/-- Source `table_into_env_map` (main.rs lines 143-145): fold `add_field` over
the fields of the table in iteration order, starting from the empty map. -/
def table_into_env_map (table : List (Str × Value)) : EnvMapOrError :=
  table.foldl add_field (Except.ok emptyEnv)

/-- Conversion `doc.try_into::<toml::value::Table>()` (main.rs line 135): succeeds
exactly on a top-level table; for any other value the `toml` crate
produces an "invalid type" deserialization error, carried here abstractly
as the debug form of the offending value. -/
def tryIntoTable : Value → Except Str (List (Str × Value))
  | Value.Table t => Except.ok t
  | v => Except.error ("invalid type: ".toList ++ debugValue v)

/-- Source `read_env_file` (main.rs lines 130-141), with the two external
collaborators — `fs::read_to_string` and the TOML parser — passed in as
functions returning either a result or their own error description. -/
def read_env_file (readToString : Str → Except Str Str)
    (parseToml : Str → Except Str Value) (path : Str) : EnvMapOrError :=
  match readToString path with
  | Except.error err => Except.error ("Could not read contents: ".toList ++ err)
  | Except.ok body =>
    match parseToml body with
    | Except.error err => Except.error ("Invalid TOML: ".toList ++ err)
    | Except.ok doc =>
      match tryIntoTable doc with
      | Except.error err => Except.error ("Unexpected format: ".toList ++ err)
      | Except.ok table => table_into_env_map table

/-- The inner `for (k, v) in m` insertion loop of `main` (main.rs lines
69-71): every entry of `m` is inserted over the accumulated map. Because
the keys of a map are distinct, the insertion order within one file cannot
matter, and the loop is exactly this right-biased union. -/
def insertAllEnv (base m : EnvMap) : EnvMap :=
  fun k =>
    match m k with
    | some v => some v
    | none => base k

/-- Call `warning(&format!("\x7b\x7d ignored: \x7b\x7d", path, msg))`
(main.rs lines 41-43 and 65). -/
def warnLine (path msg : Str) : Str :=
  "WARNING: ".toList ++ path ++ " ignored: ".toList ++ msg

/-- One iteration of the merge loop in `main` (main.rs lines 61-74): a
failing file contributes only a warning line (none when silenced); a
successful file has its entries inserted over the accumulated map. -/
def mergeStep (silent : Bool) (load : Str → EnvMapOrError)
    (acc : EnvMap × List Str) (path : Str) : EnvMap × List Str :=
  match load path with
  | Except.error msg =>
    (acc.1, if silent then acc.2 else acc.2 ++ [warnLine path msg])
  | Except.ok m => (insertAllEnv acc.1 m, acc.2)

/-- The whole merge loop of `main` (main.rs lines 60-74): fold the merge
step over `config.files` starting from the empty map, also collecting the
emitted warning lines. -/
def buildEnv (silent : Bool) (load : Str → EnvMapOrError)
    (files : List Str) : EnvMap × List Str :=
  files.foldl (mergeStep silent load) (emptyEnv, [])

/-- Modelled from the spec (for the refinement comparison of the merge):
last-write-wins override — a key present in `later` overwrites the same
key from `earlier`; keys absent from `later` retain their earlier value. -/
def overrideWith (earlier later : EnvMap) : EnvMap :=
  fun k =>
    match later k with
    | some v => some v
    | none => earlier k

/-- Modelled from the spec: the entries a single file contributes — its
loaded map on success, the empty mapping when the load fails. -/
def fileEntries (load : Str → EnvMapOrError) (path : Str) : EnvMap :=
  match load path with
  | Except.error _ => emptyEnv
  | Except.ok m => m

/-- Modelled from the spec: the left-to-right fold of the entries of each file
with last-write-wins per key. -/
def specMergedEnv (load : Str → EnvMapOrError) (paths : List Str) : EnvMap :=
  paths.foldl (fun acc p => overrideWith acc (fileEntries load p)) emptyEnv

/-- Overriding with the empty mapping changes nothing. -/
theorem overrideWith_empty (m : EnvMap) : overrideWith m emptyEnv = m := rfl

/-- The map component of the merge loop ignores the warning accumulator
and agrees with the spec-side fold from any starting accumulator. -/
theorem foldl_mergeStep_fst (silent : Bool) (load : Str → EnvMapOrError) :
    ∀ (paths : List Str) (acc : EnvMap) (ws : List Str),
      (paths.foldl (mergeStep silent load) (acc, ws)).1 =
        paths.foldl (fun a p => overrideWith a (fileEntries load p)) acc := by
  intro paths
  induction paths with
  | nil => intro acc ws; rfl
  | cons p rest ih =>
    intro acc ws
    simp only [List.foldl_cons]
    cases hl : load p with
    | error msg =>
      have hstep : mergeStep silent load (acc, ws) p =
          (acc, if silent then ws else ws ++ [warnLine p msg]) := by
        unfold mergeStep
        rw [hl]
      rw [hstep, ih acc (if silent then ws else ws ++ [warnLine p msg])]
      have hfe : fileEntries load p = emptyEnv := by
        unfold fileEntries
        rw [hl]
      rw [hfe, overrideWith_empty]
    | ok m =>
      have hstep : mergeStep silent load (acc, ws) p =
          (insertAllEnv acc m, ws) := by
        unfold mergeStep
        rw [hl]
      rw [hstep, ih (insertAllEnv acc m) ws]
      have hfe : fileEntries load p = m := by
        unfold fileEntries
        rw [hl]
      rw [hfe]
      rfl

/-- C2: the map built by the merge loop equals the spec-side left-to-right
fold of per-file entries with last-write-wins per key, where a failing
file contributes exactly the empty mapping; both sides are total, so the
merger always produces some map no matter how many files fail, and the
silent flag never influences the map. -/
theorem merged_env_eq_spec_fold (silent : Bool)
    (load : Str → EnvMapOrError) (paths : List Str) :
    (buildEnv silent load paths).1 = specMergedEnv load paths :=
  foldl_mergeStep_fst silent load paths emptyEnv []

/-- Folding over further fields never recovers from an error accumulator
(`add_field` passes `Err` through unchanged). -/
theorem foldl_add_field_error :
    ∀ (l : List (Str × Value)) (e : Str),
      l.foldl add_field (Except.error e) = Except.error e := by
  intro l
  induction l with
  | nil => intro e; rfl
  | cons kv rest ih =>
    intro e
    simp only [List.foldl_cons]
    exact ih e

/-- One-step unfolding of `add_field` on a successful accumulator. -/
theorem add_field_ok (m : EnvMap) (kv : Str × Value) :
    add_field (Except.ok m) kv =
      match stringify kv.2 with
      | some s => Except.ok (insertEnv m kv.1 s)
      | none => Except.error (fieldErr kv.1 kv.2) := rfl

/-- The fold over a table whose first non-coercible field is `(k, v)`
fails with exactly the error of that field, from any starting map. -/
theorem foldl_add_field_first_bad :
    ∀ (pre : List (Str × Value)),
      (∀ kv ∈ pre, (stringify kv.2).isSome = true) →
      ∀ (k : Str) (v : Value) (post : List (Str × Value)) (m : EnvMap),
        stringify v = none →
        (pre ++ (k, v) :: post).foldl add_field (Except.ok m) =
          Except.error (fieldErr k v) := by
  intro pre
  induction pre with
  | nil =>
    intro _ k v post m hv
    simp only [List.nil_append, List.foldl_cons]
    rw [add_field_ok, hv]
    exact foldl_add_field_error post (fieldErr k v)
  | cons kv rest ih =>
    intro hpre k v post m hv
    have hkv := hpre kv (List.mem_cons_self kv rest)
    obtain ⟨s, hs⟩ := Option.isSome_iff_exists.mp hkv
    simp only [List.cons_append, List.foldl_cons]
    rw [add_field_ok, hs]
    exact ih (fun kv' h' => hpre kv' (List.mem_cons_of_mem kv h'))
      k v post (insertEnv m kv.1 s) hv

/-- C3: if every field before `(k, v)` coerces and `v` does not, the file
loader rejects the whole file with the error naming `k` — the result is an
`Err`, never an `Ok` map containing the fields that coerced before the
failure. -/
theorem load_rejects_file_on_first_bad_field (pre : List (Str × Value))
    (k : Str) (v : Value) (post : List (Str × Value))
    (hpre : ∀ kv ∈ pre, (stringify kv.2).isSome = true)
    (hv : stringify v = none) :
    table_into_env_map (pre ++ (k, v) :: post) =
      Except.error (fieldErr k v) :=
  foldl_add_field_first_bad pre hpre k v post emptyEnv hv

/-- C3 witness: a table whose field `B` holds an array is rejected as a
whole, with the error naming `B`, even though `A` before it (and `C`
after it) coerce fine. -/
theorem load_rejects_file_witness :
    (∀ kv ∈ [(['A'], Value.String ['1'])], (stringify kv.2).isSome = true) ∧
    stringify (Value.Array []) = none ∧
    table_into_env_map ([(['A'], Value.String ['1'])] ++
        (['B'], Value.Array []) :: [(['C'], Value.Integer 2)]) =
      Except.error (fieldErr ['B'] (Value.Array [])) :=
  ⟨by decide, rfl,
    load_rejects_file_on_first_bad_field [(['A'], Value.String ['1'])]
      ['B'] (Value.Array []) [(['C'], Value.Integer 2)] (by decide) rfl⟩

/-- The five representable scalar kinds, classified independently of
`stringify`. -/
def isScalar : Value → Bool
  | Value.String _ => true
  | Value.Integer _ => true
  | Value.Float _ => true
  | Value.Boolean _ => true
  | Value.Datetime _ => true
  | Value.Array _ => false
  | Value.Table _ => false

/-- C8: `stringify` succeeds exactly on the five scalar kinds and returns
`none` for arrays and tables; a string maps to itself unmodified, an
integer to its sign-preserving decimal form, and a boolean to the literal
`true`/`false`. It is a pure total function, so it has no side effects and
no failure mode beyond the `none` variant. -/
theorem stringify_characterization :
    (∀ v, (stringify v).isSome = isScalar v) ∧
    (∀ s, stringify (Value.String s) = some s) ∧
    (∀ x : Int, stringify (Value.Integer x) = some (intStr x) ∧
      intStr x = (if x < 0
        then '-' :: (Nat.repr (-x).toNat).toList
        else (Nat.repr x.toNat).toList)) ∧
    (∀ b, stringify (Value.Boolean b) =
      some (if b then "true".toList else "false".toList)) := by
  refine ⟨fun v => ?_, fun s => rfl, fun x => ⟨rfl, ?_⟩, fun b => rfl⟩
  · cases v <;> rfl
  · cases x with
    | ofNat n =>
      rw [if_neg (show ¬Int.ofNat n < 0 from
        Int.not_lt.mpr (Int.ofNat_nonneg n))]
      rfl
    | negSucc n =>
      rw [if_pos (Int.negSucc_lt_zero n)]
      show (("-" ++ Nat.repr (n + 1)).data) = _
      rw [String.data_append]
      rw [Int.neg_negSucc]
      rfl

/-- C9 counterexample: the loader performs no validation on keys or
values. A table with the empty key — which the TOML format accepts as the
quoted key `""` — yields a map binding the empty key, and a string value
containing a NUL character — which TOML accepts via the `\u0000` escape —
is passed through verbatim into the map. -/
theorem envmap_invariant_fails :
    table_into_env_map [(([] : Str), Value.String ['x'])] =
      Except.ok (insertEnv emptyEnv [] ['x']) ∧
    insertEnv emptyEnv [] ['x'] [] = some ['x'] ∧
    table_into_env_map [(['K'], Value.String [Char.ofNat 0])] =
      Except.ok (insertEnv emptyEnv ['K'] [Char.ofNat 0]) ∧
    insertEnv emptyEnv ['K'] [Char.ofNat 0] ['K'] = some [Char.ofNat 0] :=
  ⟨rfl, by decide, rfl, by decide⟩

/-- Every binding of a map built by the field fold either comes from a
table field via `stringify` or was already in the starting map. -/
theorem foldl_add_field_bindings :
    ∀ (table : List (Str × Value)) (m0 m : EnvMap),
      table.foldl add_field (Except.ok m0) = Except.ok m →
      ∀ k v, m k = some v →
        (∃ v', (k, v') ∈ table ∧ stringify v' = some v) ∨ m0 k = some v := by
  intro table
  induction table with
  | nil =>
    intro m0 m h k v hk
    have hm : m0 = m := by injection h
    right
    rw [hm]
    exact hk
  | cons kv rest ih =>
    intro m0 m h k v hk
    rw [List.foldl_cons, add_field_ok] at h
    cases hs : stringify kv.2 with
    | none =>
      rw [hs] at h
      have h' : rest.foldl add_field (Except.error (fieldErr kv.1 kv.2)) =
          Except.ok m := h
      rw [foldl_add_field_error] at h'
      exact Except.noConfusion h'
    | some s =>
      rw [hs] at h
      have h' : rest.foldl add_field (Except.ok (insertEnv m0 kv.1 s)) =
          Except.ok m := h
      rcases ih (insertEnv m0 kv.1 s) m h' k v hk with hfrom | hbase
      · obtain ⟨v', hv1, hv2⟩ := hfrom
        exact Or.inl ⟨v', List.mem_cons_of_mem kv hv1, hv2⟩
      · by_cases hke : k = kv.1
        · have hsv : some s = some v := by
            have hb := hbase
            unfold insertEnv at hb
            rw [if_pos hke] at hb
            exact hb
          have hsv' : s = v := by injection hsv
          refine Or.inl ⟨kv.2, ?_, ?_⟩
          · rw [hke]
            exact List.mem_cons_self kv rest
          · rw [hs, hsv']
        · right
          have hb := hbase
          unfold insertEnv at hb
          rw [if_neg hke] at hb
          exact hb

/-- C9 (amended): every binding of a map produced by the file loader comes
verbatim from the parsed table — its key is one of the keys of the table, and
its value is the scalar coercion of the value at that key. The loader itself
neither creates, alters nor filters keys, so the "non-empty, NUL-free"
invariant holds exactly when the external parser only supplies such keys
and string payloads — which the TOML grammar does not guarantee (see the
counterexample). -/
theorem env_bindings_come_from_table (table : List (Str × Value))
    (m : EnvMap) (h : table_into_env_map table = Except.ok m)
    (k v : Str) (hk : m k = some v) :
    ∃ v', (k, v') ∈ table ∧ stringify v' = some v := by
  rcases foldl_add_field_bindings table emptyEnv m h k v hk with hfrom | hbase
  · exact hfrom
  · exact Option.noConfusion hbase

/-- C9 witness: on the one-field table `A = "x"` the produced binding for
`A` indeed traces back to the table field `A`. -/
theorem env_bindings_witness :
    table_into_env_map [(['A'], Value.String ['x'])] =
      Except.ok (insertEnv emptyEnv ['A'] ['x']) ∧
    insertEnv emptyEnv ['A'] ['x'] ['A'] = some ['x'] ∧
    (∃ v', (['A'], v') ∈ [(['A'], Value.String ['x'])] ∧
      stringify v' = some ['x']) :=
  ⟨rfl, by decide,
    env_bindings_come_from_table [(['A'], Value.String ['x'])]
      (insertEnv emptyEnv ['A'] ['x']) rfl ['A'] ['x'] (by decide)⟩

end Envf
